import Mathlib

/-!
Verification of the route-guide service (src/server/server.go) against its
specification.

Modelling conventions:
* `Point`, `Rectangle`, `Feature`, `RouteNote`, `RouteSummary` mirror the
  protobuf messages used by the server; the int32 coordinate fields are
  modelled as `Int`.
* `inRange` converts the integer coordinates to `ℚ` where the Go code
  converts them to float64.  On this code path the float64 computation is
  exact — every int32 is exactly representable in float64, and `math.Min`,
  `math.Max` and the comparisons introduce no rounding — so the rational
  model computes the same booleans as the float64 code.
* `calcDistance` uses real-valued trigonometric functions where the Go code
  uses float64 `math.Sin`/`Cos`/`Sqrt`/`Atan2`; `atan2` and `truncToInt`
  model `math.Atan2` and Go's truncating `int32(...)` conversion.
* Streams are modelled as finite lists: the list of points received by
  `RecordRoute`, the list of features sent by `ListFeatures`, and the list
  of notes received (and the batches of notes sent) by `RouteChat`.
* The `RecordRoute` accumulators `pointCount`, `featureCount` and
  `distance` are declared `int32` in the Go code, whose arithmetic wraps on
  overflow; every accumulating step is therefore reduced by `wrap32`, the
  two's-complement reduction of an integer into `[-2^31, 2^31)`.
* The elapsed wall-clock duration observed by `RecordRoute` is an external
  input of the model, passed as a real number of seconds.
-/

structure Point where
  latitude : Int
  longitude : Int
deriving DecidableEq

structure Rectangle where
  lo : Point
  hi : Point
deriving DecidableEq

structure Feature where
  name : String
  location : Point
deriving DecidableEq

structure RouteNote where
  location : Point
  message : String
deriving DecidableEq

structure RouteSummary where
  pointCount : Int
  featureCount : Int
  distance : Int
  elapsedTime : Int
deriving DecidableEq

/-- Model of `inRange(point, rect)` from server.go: the bounds
`left/right/bottom/top` are the min/max of the rectangle corners computed in
float64 (modelled exactly by `ℚ`), and the point is inside when its longitude
lies in `[left, right]` and its latitude in `[bottom, top]`, all inclusive. -/
def inRange (point : Point) (rect : Rectangle) : Bool :=
  decide (min (rect.lo.longitude : ℚ) (rect.hi.longitude : ℚ) ≤ (point.longitude : ℚ)) &&
  decide ((point.longitude : ℚ) ≤ max (rect.lo.longitude : ℚ) (rect.hi.longitude : ℚ)) &&
  decide (min (rect.lo.latitude : ℚ) (rect.hi.latitude : ℚ) ≤ (point.latitude : ℚ)) &&
  decide ((point.latitude : ℚ) ≤ max (rect.lo.latitude : ℚ) (rect.hi.latitude : ℚ))

/-- The purely integer min/max containment test that `inRange` refines
(the spec-side description of the test, with no float conversion). -/
def inRangeInt (point : Point) (rect : Rectangle) : Bool :=
  decide (min rect.lo.longitude rect.hi.longitude ≤ point.longitude) &&
  decide (point.longitude ≤ max rect.lo.longitude rect.hi.longitude) &&
  decide (min rect.lo.latitude rect.hi.latitude ≤ point.latitude) &&
  decide (point.latitude ≤ max rect.lo.latitude rect.hi.latitude)

/-- Model of `GetFeature` from server.go: scan `knownFeatures` in order,
return the first feature whose location equals the query point with a `nil`
error; if none matches, return an unnamed feature at the query point, again
with a `nil` error.  The `Option String` component is the Go `error` return
value (`none` is `nil`). -/
def GetFeature (fs : List Feature) (p : Point) : Feature × Option String :=
  match fs with
  | [] => (⟨"", p⟩, none)
  | f :: rest => if f.location = p then (f, none) else GetFeature rest p

/-- Model of `ListFeatures` from server.go: scan `knownFeatures` in order and
send every feature whose location is `inRange` of the rectangle.  The result
is the list of messages sent on the stream, in order. -/
def ListFeatures (fs : List Feature) (rect : Rectangle) : List Feature :=
  match fs with
  | [] => []
  | f :: rest =>
      if inRange f.location rect then f :: ListFeatures rest rect
      else ListFeatures rest rect

/-- The rectangle covering the whole int32 coordinate space. -/
def fullSpaceRect : Rectangle := ⟨⟨-(2 ^ 31), -(2 ^ 31)⟩, ⟨2 ^ 31 - 1, 2 ^ 31 - 1⟩⟩

/-- The character for a single decimal digit (`0` through `9`). -/
def digitChar (d : Nat) : Char := Char.ofNat (48 + d)

/-- Decimal rendering of a natural number, most significant digit first,
as produced by Go's `%d` verb for a non-negative value. -/
def natChars (n : Nat) : List Char :=
  if n = 0 then ['0'] else ((Nat.digits 10 n).map digitChar).reverse

/-- Decimal rendering of an integer as produced by Go's `%d` verb: a leading
minus sign for negative values, then the decimal magnitude. -/
def intChars (i : Int) : List Char :=
  if i < 0 then '-' :: natChars i.natAbs else natChars i.natAbs

/-- Model of the RouteChat registry key `fmt.Sprintf("%d %d", lat, lng)`:
the decimal latitude, a space, and the decimal longitude. -/
def noteKey (p : Point) : String :=
  String.mk (intChars p.latitude ++ ' ' :: intChars p.longitude)

/-- Model of `RouteChat` from server.go, processing one call's inbound notes
sequentially from registry state `reg`: each note is appended to the slice
at its location's key, a snapshot copy of that slice is taken, and the
snapshot is sent as this note's batch of outbound messages.  Returns the
final registry and the list of outbound batches. -/
def RouteChat (reg : String → List RouteNote) (notes : List RouteNote) :
    (String → List RouteNote) × List (List RouteNote) :=
  match notes with
  | [] => (reg, [])
  | n :: rest =>
      let key := noteKey n.location
      let snapshot := reg key ++ [n]
      let next := RouteChat (Function.update reg key snapshot) rest
      (next.1, snapshot :: next.2)

/-- The registry state after appending each of `notes` in order to the entry
at its location's key (the spec-side description of the registry updates). -/
def registryAfter (reg : String → List RouteNote) (notes : List RouteNote) :
    String → List RouteNote :=
  notes.foldl
    (fun r n => Function.update r (noteKey n.location) (r (noteKey n.location) ++ [n])) reg

/-- Model of Go's `math.Atan2(y, x)` on real (non-NaN) inputs. -/
noncomputable def atan2 (y x : ℝ) : ℝ :=
  if 0 < x then Real.arctan (y / x)
  else if x < 0 then
    (if 0 ≤ y then Real.arctan (y / x) + Real.pi else Real.arctan (y / x) - Real.pi)
  else
    (if 0 < y then Real.pi / 2 else if y < 0 then -(Real.pi / 2) else 0)

/-- Model of Go's `int32(...)` conversion from float64: truncation toward
zero (for values representable in int32). -/
noncomputable def truncToInt (x : ℝ) : Int :=
  if 0 ≤ x then ⌊x⌋ else -⌊-x⌋

/-- Model of `toRadians` from server.go. -/
noncomputable def toRadians (num : ℝ) : ℝ := num * Real.pi / 180

/-- The latitude of a point in radians: `toRadians(float64(p.Latitude) / 1e7)`
as computed by `calcDistance`. -/
noncomputable def pointLatRad (p : Point) : ℝ :=
  toRadians ((p.latitude : ℝ) / 10000000)

/-- The longitude of a point in radians: `toRadians(float64(p.Longitude) / 1e7)`
as computed by `calcDistance`. -/
noncomputable def pointLngRad (p : Point) : ℝ :=
  toRadians ((p.longitude : ℝ) / 10000000)

/-- The intermediate `a` of the haversine formula in `calcDistance`:
`sin(dlat/2)*sin(dlat/2) + cos(lat1)*cos(lat2)*sin(dlng/2)*sin(dlng/2)`. -/
noncomputable def haversineA (p1 p2 : Point) : ℝ :=
  Real.sin ((pointLatRad p2 - pointLatRad p1) / 2) *
      Real.sin ((pointLatRad p2 - pointLatRad p1) / 2) +
    Real.cos (pointLatRad p1) * Real.cos (pointLatRad p2) *
      (Real.sin ((pointLngRad p2 - pointLngRad p1) / 2) *
        Real.sin ((pointLngRad p2 - pointLngRad p1) / 2))

/-- Model of `calcDistance` from server.go: the haversine great-circle
distance in metres with Earth radius 6371000, `c = 2*atan2(sqrt(a),
sqrt(1-a))`, truncated to an integer by the `int32` conversion. -/
noncomputable def calcDistance (p1 p2 : Point) : Int :=
  truncToInt (6371000 *
    (2 * atan2 (Real.sqrt (haversineA p1 p2)) (Real.sqrt (1 - haversineA p1 p2))))

/-- Two's-complement reduction of an integer into the int32 range
`[-2^31, 2^31)`: the value of a wrapping Go `int32` computation. -/
def wrap32 (n : Int) : Int := (n + 2 ^ 31) % 2 ^ 32 - 2 ^ 31

/-- The accumulation loop of `RecordRoute` from server.go: for each received
point increment `pointCount`, bump `featureCount` once per known feature at
exactly that point (the inner loop over the store), and when a previous
point exists add `calcDistance(lastPoint, point)` to `distance`.  All three
accumulators are Go `int32` variables, so every addition wraps (`wrap32`). -/
noncomputable def recordRouteLoop (fs : List Feature) (points : List Point)
    (pc fc dist : Int) (lastPoint : Option Point) : Int × Int × Int :=
  match points with
  | [] => (pc, fc, dist)
  | p :: rest =>
      recordRouteLoop fs rest (wrap32 (pc + 1))
        (fs.foldl (fun acc f => if f.location = p then wrap32 (acc + 1) else acc) fc)
        (match lastPoint with
         | none => dist
         | some lp => wrap32 (dist + calcDistance lp p))
        (some p)

/-- A stream of `n + 1` points alternating between `a` and `b`, used to
exercise `RecordRoute` on `n` consecutive pairs of identical distance. -/
def altPoints (n : Nat) (a b : Point) : List Point :=
  match n with
  | 0 => [a]
  | Nat.succ m => a :: altPoints m b a

/-- Model of `RecordRoute` from server.go: run the accumulation loop over the
whole inbound stream starting from zero counters and no previous point, then
answer with the summary; `elapsed` is the wall-clock duration in seconds
between the start of the call and end-of-stream, truncated by the `int32`
conversion. -/
noncomputable def RecordRoute (fs : List Feature) (points : List Point)
    (elapsed : ℝ) : RouteSummary :=
  let r := recordRouteLoop fs points 0 0 0 none
  ⟨r.1, r.2.1, r.2.2, truncToInt elapsed⟩

theorem inRange_true_iff (p : Point) (r : Rectangle) :
    inRange p r = true ↔
      (min r.lo.longitude r.hi.longitude ≤ p.longitude ∧
       p.longitude ≤ max r.lo.longitude r.hi.longitude ∧
       min r.lo.latitude r.hi.latitude ≤ p.latitude ∧
       p.latitude ≤ max r.lo.latitude r.hi.latitude) := by
  simp only [inRange, Bool.and_eq_true, decide_eq_true_eq, min_le_iff, le_max_iff,
    Int.cast_le, and_assoc]

theorem inRangeInt_true_iff (p : Point) (r : Rectangle) :
    inRangeInt p r = true ↔
      (min r.lo.longitude r.hi.longitude ≤ p.longitude ∧
       p.longitude ≤ max r.lo.longitude r.hi.longitude ∧
       min r.lo.latitude r.hi.latitude ≤ p.latitude ∧
       p.latitude ≤ max r.lo.latitude r.hi.latitude) := by
  simp only [inRangeInt, Bool.and_eq_true, decide_eq_true_eq, and_assoc]

theorem inRange_eq_inRangeInt (p : Point) (r : Rectangle) :
    inRange p r = inRangeInt p r := by
  cases h1 : inRange p r <;> cases h2 : inRangeInt p r <;> try rfl
  · exact absurd ((inRange_true_iff p r).mpr ((inRangeInt_true_iff p r).mp h2))
      (by simp [h1])
  · exact absurd ((inRangeInt_true_iff p r).mpr ((inRange_true_iff p r).mp h1))
      (by simp [h2])

/-- C5: the containment test is invariant under swapping the two rectangle
corners, and it holds exactly when the point's longitude lies between the
min and max of the corner longitudes and its latitude between the min and
max of the corner latitudes, inclusive on both boundaries. -/
theorem inRange_swap_minmax (p : Point) (r : Rectangle) :
    inRange p ⟨r.hi, r.lo⟩ = inRange p r ∧
    (inRange p r = true ↔
      (min r.lo.longitude r.hi.longitude ≤ p.longitude ∧
       p.longitude ≤ max r.lo.longitude r.hi.longitude ∧
       min r.lo.latitude r.hi.latitude ≤ p.latitude ∧
       p.latitude ≤ max r.lo.latitude r.hi.latitude)) := by
  constructor
  · simp only [inRange]
    rw [min_comm ((r.hi).longitude : ℚ), max_comm ((r.hi).longitude : ℚ),
      min_comm ((r.hi).latitude : ℚ), max_comm ((r.hi).latitude : ℚ)]
  · exact inRange_true_iff p r

/-- C10: for int32-range coordinates the float64-based containment test
returns exactly the same boolean as the purely integer min/max comparison it
refines (the int32-to-float64 conversions are exact). -/
theorem inRange_refines_int (p : Point) (r : Rectangle)
    (_hp : -(2 ^ 31) ≤ p.latitude ∧ p.latitude < 2 ^ 31 ∧
          -(2 ^ 31) ≤ p.longitude ∧ p.longitude < 2 ^ 31)
    (_hlo : -(2 ^ 31) ≤ r.lo.latitude ∧ r.lo.latitude < 2 ^ 31 ∧
           -(2 ^ 31) ≤ r.lo.longitude ∧ r.lo.longitude < 2 ^ 31)
    (_hhi : -(2 ^ 31) ≤ r.hi.latitude ∧ r.hi.latitude < 2 ^ 31 ∧
           -(2 ^ 31) ≤ r.hi.longitude ∧ r.hi.longitude < 2 ^ 31) :
    inRange p r = inRangeInt p r :=
  inRange_eq_inRangeInt p r

/-- Witness for C10 at a concrete point and rectangle. -/
theorem inRange_refines_int_witness :
    inRange ⟨3, 4⟩ ⟨⟨10, -5⟩, ⟨-2, 7⟩⟩ = inRangeInt ⟨3, 4⟩ ⟨⟨10, -5⟩, ⟨-2, 7⟩⟩ :=
  inRange_refines_int ⟨3, 4⟩ ⟨⟨10, -5⟩, ⟨-2, 7⟩⟩ (by decide) (by decide) (by decide)

/-- C2: `GetFeature` never returns an error; when some feature's location
equals the query point it returns the first such feature in store order
(with that feature's exact name), and otherwise it returns a synthesized
feature with empty name whose location is the query point. -/
theorem GetFeature_spec (fs : List Feature) (p : Point) :
    (GetFeature fs p).2 = none ∧
    (∀ (i : Nat) (hi : i < fs.length), (fs.get ⟨i, hi⟩).location = p →
      (∀ (j : Nat) (hj : j < i), (fs.get ⟨j, Nat.lt_trans hj hi⟩).location ≠ p) →
      (GetFeature fs p).1 = fs.get ⟨i, hi⟩) ∧
    ((∀ f ∈ fs, f.location ≠ p) → (GetFeature fs p).1 = ⟨"", p⟩) := by
  induction fs with
  | nil =>
    refine ⟨rfl, ?_, fun _ => rfl⟩
    intro i hi
    exact absurd hi (Nat.not_lt_zero i)
  | cons f rest ih =>
    by_cases h : f.location = p
    · refine ⟨by simp [GetFeature, h], ?_, ?_⟩
      · intro i hi hloc hfirst
        match i with
        | 0 => simp [GetFeature, h]
        | Nat.succ j =>
          exact absurd h (hfirst 0 (Nat.succ_pos j))
      · intro hall
        exact absurd h (hall f (List.mem_cons_self f rest))
    · have hstep : GetFeature (f :: rest) p = GetFeature rest p := by
        simp [GetFeature, h]
      refine ⟨hstep ▸ ih.1, ?_, ?_⟩
      · intro i hi hloc hfirst
        match i with
        | 0 => exact absurd hloc h
        | Nat.succ j =>
          have hj : j < rest.length := Nat.lt_of_succ_lt_succ hi
          rw [hstep]
          exact ih.2.1 j hj hloc
            (fun k hk => hfirst (k + 1) (Nat.succ_lt_succ hk))
      · intro hall
        rw [hstep]
        exact ih.2.2 (fun g hg => hall g (List.mem_cons_of_mem f hg))

/-- Witness for C2: a store whose only feature sits at the query point, and
an empty store. -/
theorem GetFeature_spec_witness :
    (GetFeature [⟨"A", ⟨1, 2⟩⟩] ⟨1, 2⟩).1 = ⟨"A", ⟨1, 2⟩⟩ ∧
    (GetFeature [⟨"A", ⟨1, 2⟩⟩] ⟨1, 2⟩).2 = none ∧
    (GetFeature [] ⟨3, 4⟩).1 = ⟨"", ⟨3, 4⟩⟩ :=
  ⟨(GetFeature_spec [⟨"A", ⟨1, 2⟩⟩] ⟨1, 2⟩).2.1 0 (by decide) rfl
      (fun j hj => absurd hj (Nat.not_lt_zero j)),
   (GetFeature_spec [⟨"A", ⟨1, 2⟩⟩] ⟨1, 2⟩).1,
   (GetFeature_spec [] ⟨3, 4⟩).2.2 (by simp)⟩

theorem ListFeatures_eq_filter (fs : List Feature) (rect : Rectangle) :
    ListFeatures fs rect = fs.filter (fun f => inRange f.location rect) := by
  induction fs with
  | nil => rfl
  | cons f rest ih =>
    by_cases h : inRange f.location rect <;>
      simp [ListFeatures, List.filter_cons, h, ih]

/-- C3: `ListFeatures` emits exactly the loaded features whose location
passes the containment test, one message per feature, in store order (it is
the containment filter of the store, hence a sublist of the store); with no
match it emits nothing, and with the full-space rectangle it emits every
int32-range feature exactly once in load order. -/
theorem ListFeatures_spec (fs : List Feature) (rect : Rectangle) :
    ListFeatures fs rect = fs.filter (fun f => inRange f.location rect) ∧
    List.Sublist (ListFeatures fs rect) fs ∧
    (∀ f, f ∈ ListFeatures fs rect ↔ f ∈ fs ∧ inRange f.location rect = true) ∧
    ((∀ f ∈ fs, inRange f.location rect = false) → ListFeatures fs rect = []) ∧
    ((∀ f ∈ fs, -(2 ^ 31) ≤ f.location.latitude ∧ f.location.latitude < 2 ^ 31 ∧
        -(2 ^ 31) ≤ f.location.longitude ∧ f.location.longitude < 2 ^ 31) →
      ListFeatures fs fullSpaceRect = fs) := by
  refine ⟨ListFeatures_eq_filter fs rect, ?_, ?_, ?_, ?_⟩
  · rw [ListFeatures_eq_filter]
    exact List.filter_sublist fs
  · intro f
    rw [ListFeatures_eq_filter]
    simp [List.mem_filter]
  · intro hnone
    rw [ListFeatures_eq_filter]
    exact List.filter_eq_nil_iff.mpr (fun f hf => by simp [hnone f hf])
  · intro hrange
    rw [ListFeatures_eq_filter]
    refine List.filter_eq_self.mpr (fun f hf => ?_)
    have h := hrange f hf
    rw [inRange_eq_inRangeInt]
    rw [inRangeInt_true_iff]
    simp only [fullSpaceRect]
    constructor
    · simp only [min_le_iff]
      left
      omega
    refine ⟨?_, ?_, ?_⟩
    · simp only [le_max_iff]
      right
      omega
    · simp only [min_le_iff]
      left
      omega
    · simp only [le_max_iff]
      right
      omega

/-- Witness for C3: a one-feature store, a rectangle missing it, and the
full-space rectangle containing it. -/
theorem ListFeatures_spec_witness :
    ListFeatures [⟨"A", ⟨1, 2⟩⟩] ⟨⟨10, 10⟩, ⟨20, 20⟩⟩ = [] ∧
    ListFeatures [⟨"A", ⟨1, 2⟩⟩] fullSpaceRect = [⟨"A", ⟨1, 2⟩⟩] :=
  ⟨(ListFeatures_spec [⟨"A", ⟨1, 2⟩⟩] ⟨⟨10, 10⟩, ⟨20, 20⟩⟩).2.2.2.1
      (by intro f hf; simp at hf; subst hf; decide),
   (ListFeatures_spec [⟨"A", ⟨1, 2⟩⟩] ⟨⟨10, 10⟩, ⟨20, 20⟩⟩).2.2.2.2
      (by intro f hf; simp at hf; subst hf; refine ⟨by decide, by decide, by decide, by decide⟩)⟩

theorem RouteChat_fst (notes : List RouteNote) :
    ∀ reg, (RouteChat reg notes).1 = registryAfter reg notes := by
  induction notes with
  | nil => intro reg; rfl
  | cons n rest ih =>
    intro reg
    simpa [RouteChat, registryAfter] using
      ih (Function.update reg (noteKey n.location) (reg (noteKey n.location) ++ [n]))

theorem RouteChat_length (notes : List RouteNote) :
    ∀ reg, (RouteChat reg notes).2.length = notes.length := by
  induction notes with
  | nil => intro reg; rfl
  | cons n rest ih =>
    intro reg
    simpa [RouteChat] using
      ih (Function.update reg (noteKey n.location) (reg (noteKey n.location) ++ [n]))

theorem RouteChat_batch (notes : List RouteNote) :
    ∀ (reg : String → List RouteNote) (i : Nat) (hi : i < notes.length),
      (RouteChat reg notes).2.get? i =
        some (registryAfter reg (notes.take (i + 1)) (noteKey (notes.get ⟨i, hi⟩).location)) := by
  induction notes with
  | nil =>
    intro reg i hi
    exact absurd hi (Nat.not_lt_zero i)
  | cons n rest ih =>
    intro reg i hi
    match i with
    | 0 => simp [RouteChat, registryAfter, Function.update_same]
    | Nat.succ j =>
      have hj : j < rest.length := Nat.lt_of_succ_lt_succ hi
      simpa [RouteChat, registryAfter] using
        ih (Function.update reg (noteKey n.location) (reg (noteKey n.location) ++ [n])) j hj

theorem digitChar_toNat {d : Nat} (hd : d < 10) : (digitChar d).toNat = 48 + d := by
  interval_cases d <;> decide

theorem digitChar_injOn {d1 d2 : Nat} (h1 : d1 < 10) (h2 : d2 < 10)
    (h : digitChar d1 = digitChar d2) : d1 = d2 := by
  have h3 := congrArg Char.toNat h
  rw [digitChar_toNat h1, digitChar_toNat h2] at h3
  omega

theorem digitChar_ne_space {d : Nat} (hd : d < 10) : digitChar d ≠ ' ' := by
  intro h
  have h3 := congrArg Char.toNat h
  rw [digitChar_toNat hd] at h3
  have h32 : (' ' : Char).toNat = 32 := rfl
  omega

theorem digitChar_ne_minus {d : Nat} (hd : d < 10) : digitChar d ≠ '-' := by
  intro h
  have h3 := congrArg Char.toNat h
  rw [digitChar_toNat hd] at h3
  have h45 : ('-' : Char).toNat = 45 := rfl
  omega

theorem mem_natChars {n : Nat} {c : Char} (hc : c ∈ natChars n) :
    ∃ d, d < 10 ∧ c = digitChar d := by
  unfold natChars at hc
  by_cases h : n = 0
  · subst h
    simp at hc
    exact ⟨0, by omega, by rw [hc]; rfl⟩
  · simp [h] at hc
    obtain ⟨d, hd, rfl⟩ := hc
    exact ⟨d, Nat.digits_lt_base (by norm_num) hd, rfl⟩

theorem space_not_mem_natChars (n : Nat) : ' ' ∉ natChars n := by
  intro h
  obtain ⟨d, hd, hc⟩ := mem_natChars h
  exact digitChar_ne_space hd hc.symm

theorem minus_not_mem_natChars (n : Nat) : '-' ∉ natChars n := by
  intro h
  obtain ⟨d, hd, hc⟩ := mem_natChars h
  exact digitChar_ne_minus hd hc.symm

theorem space_not_mem_intChars (i : Int) : ' ' ∉ intChars i := by
  unfold intChars
  by_cases h : i < 0
  · simp only [h, if_pos]
    intro hmem
    rcases List.mem_cons.mp hmem with h1 | h1
    · exact absurd h1.symm (by decide)
    · exact space_not_mem_natChars _ h1
  · simp only [h, if_neg, not_false_iff]
    exact space_not_mem_natChars _

theorem map_digitChar_inj : ∀ {l1 l2 : List Nat}, (∀ d ∈ l1, d < 10) →
    (∀ d ∈ l2, d < 10) → l1.map digitChar = l2.map digitChar → l1 = l2 := by
  intro l1
  induction l1 with
  | nil =>
    intro l2 _ _ h
    cases l2 with
    | nil => rfl
    | cons d ds => exact absurd h (by simp)
  | cons d ds ih =>
    intro l2 h1 h2 h
    cases l2 with
    | nil => exact absurd h (by simp)
    | cons e es =>
      simp only [List.map_cons, List.cons.injEq] at h
      have hd : d = e :=
        digitChar_injOn (h1 d (List.mem_cons_self d ds)) (h2 e (List.mem_cons_self e es)) h.1
      have hds : ds = es :=
        ih (fun x hx => h1 x (List.mem_cons_of_mem d hx))
          (fun x hx => h2 x (List.mem_cons_of_mem e hx)) h.2
      rw [hd, hds]

theorem natChars_eq_singleton_zero {n : Nat} (h : natChars n = ['0']) : n = 0 := by
  by_cases hn : n = 0
  · exact hn
  · exfalso
    unfold natChars at h
    simp only [hn, if_neg, not_false_iff] at h
    have hmap : (Nat.digits 10 n).map digitChar = ['0'] := by
      have h2 := congrArg List.reverse h
      simpa using h2
    cases hds : Nat.digits 10 n with
    | nil =>
      rw [hds] at hmap
      exact absurd hmap (by simp)
    | cons x xs =>
      rw [hds] at hmap
      simp only [List.map_cons, List.cons.injEq] at hmap
      have hx10 : x < 10 := Nat.digits_lt_base (by norm_num)
        (by rw [hds]; exact List.mem_cons_self x xs)
      have hx : x = 0 := digitChar_injOn hx10 (by norm_num) (hmap.1.trans (by decide))
      have hxs : xs = [] := List.map_eq_nil_iff.mp hmap.2
      have h4 := Nat.ofDigits_digits 10 n
      rw [hds, hx, hxs] at h4
      simp [Nat.ofDigits] at h4
      exact hn h4.symm

theorem natChars_injective {m n : Nat} (h : natChars m = natChars n) : m = n := by
  by_cases hm : m = 0 <;> by_cases hn : n = 0
  · omega
  · exfalso
    have h0 : natChars n = ['0'] := by
      rw [← h, hm]
      rfl
    exact hn (natChars_eq_singleton_zero h0)
  · exfalso
    have h0 : natChars m = ['0'] := by
      rw [h, hn]
      rfl
    exact hm (natChars_eq_singleton_zero h0)
  · unfold natChars at h
    simp only [hm, hn, if_neg, not_false_iff] at h
    have hrev := congrArg List.reverse h
    simp only [List.reverse_reverse] at hrev
    have hdig : Nat.digits 10 m = Nat.digits 10 n :=
      map_digitChar_inj
        (fun d hd => Nat.digits_lt_base (by norm_num) hd)
        (fun d hd => Nat.digits_lt_base (by norm_num) hd) hrev
    calc m = Nat.ofDigits 10 (Nat.digits 10 m) := (Nat.ofDigits_digits 10 m).symm
      _ = Nat.ofDigits 10 (Nat.digits 10 n) := by rw [hdig]
      _ = n := Nat.ofDigits_digits 10 n

theorem intChars_injective {i j : Int} (h : intChars i = intChars j) : i = j := by
  unfold intChars at h
  by_cases hi : i < 0 <;> by_cases hj : j < 0
  · simp only [hi, hj, if_pos] at h
    have := natChars_injective (List.tail_eq_of_cons_eq h)
    omega
  · exfalso
    simp only [hi, if_pos, hj, if_neg, not_false_iff] at h
    exact minus_not_mem_natChars j.natAbs (h ▸ List.mem_cons_self '-' _)
  · exfalso
    simp only [hj, if_pos, hi, if_neg, not_false_iff] at h
    exact minus_not_mem_natChars i.natAbs (h.symm ▸ List.mem_cons_self '-' _)
  · simp only [hi, hj, if_neg, not_false_iff] at h
    have := natChars_injective h
    omega

theorem append_space_inj : ∀ {l1 l3 : List Char} {l2 l4 : List Char},
    ' ' ∉ l1 → ' ' ∉ l3 → l1 ++ ' ' :: l2 = l3 ++ ' ' :: l4 → l1 = l3 ∧ l2 = l4 := by
  intro l1
  induction l1 with
  | nil =>
    intro l3 l2 l4 _ h3 h
    cases l3 with
    | nil => exact ⟨rfl, List.tail_eq_of_cons_eq h⟩
    | cons c cs =>
      exfalso
      simp only [List.nil_append, List.cons_append, List.cons.injEq] at h
      exact h3 (h.1 ▸ List.mem_cons_self c cs)
  | cons c cs ih =>
    intro l3 l2 l4 h1 h3 h
    cases l3 with
    | nil =>
      exfalso
      simp only [List.cons_append, List.nil_append, List.cons.injEq] at h
      exact h1 (h.1 ▸ List.mem_cons_self c cs)
    | cons e es =>
      simp only [List.cons_append, List.cons.injEq] at h
      have hrec := ih (fun hx => h1 (List.mem_cons_of_mem c hx))
        (fun hx => h3 (List.mem_cons_of_mem e hx)) h.2
      exact ⟨by rw [h.1, hrec.1], hrec.2⟩

/-- C9: the RouteChat registry key derivation is injective on exact
coordinates: two points produce the same key string exactly when both their
latitude and their longitude integers are equal. -/
theorem noteKey_injective (p q : Point) :
    noteKey p = noteKey q ↔ p.latitude = q.latitude ∧ p.longitude = q.longitude := by
  constructor
  · intro h
    have hdata : intChars p.latitude ++ ' ' :: intChars p.longitude =
        intChars q.latitude ++ ' ' :: intChars q.longitude := by
      injection h
    obtain ⟨h1, h2⟩ := append_space_inj (space_not_mem_intChars p.latitude)
      (space_not_mem_intChars q.latitude) hdata
    exact ⟨intChars_injective h1, intChars_injective h2⟩
  · intro h
    unfold noteKey
    rw [h.1, h.2]

/-- C4: each incoming note is appended to the registry entry at its
location's key (the final registry is exactly the fold of the appends), one
outbound batch is emitted per note, the `i`-th batch is the full post-append
sequence at the `i`-th note's key (so it includes the just-appended note, in
append order), and a call sending two notes to the same location from the
empty registry yields the batches `[n1]` then `[n1, n2]`. -/
theorem RouteChat_spec (reg : String → List RouteNote) (notes : List RouteNote) :
    (RouteChat reg notes).1 = registryAfter reg notes ∧
    (RouteChat reg notes).2.length = notes.length ∧
    (∀ (i : Nat) (hi : i < notes.length),
      (RouteChat reg notes).2.get? i =
        some (registryAfter reg (notes.take (i + 1)) (noteKey (notes.get ⟨i, hi⟩).location))) ∧
    (∀ n1 n2 : RouteNote, n1.location = n2.location →
      (RouteChat (fun _ => []) [n1, n2]).2 = [[n1], [n1, n2]]) := by
  refine ⟨RouteChat_fst notes reg, RouteChat_length notes reg, RouteChat_batch notes reg, ?_⟩
  intro n1 n2 h
  have hk : noteKey n2.location = noteKey n1.location := by rw [h]
  simp only [RouteChat]
  rw [hk, Function.update_same]
  simp

/-- Witness for C4: two notes at the same location, starting from the empty
registry. -/
theorem RouteChat_spec_witness :
    (RouteChat (fun _ => []) [⟨⟨0, 1⟩, "a"⟩, ⟨⟨0, 1⟩, "b"⟩]).2 =
      [[⟨⟨0, 1⟩, "a"⟩], [⟨⟨0, 1⟩, "a"⟩, ⟨⟨0, 1⟩, "b"⟩]] ∧
    (RouteChat (fun _ => []) [⟨⟨0, 1⟩, "a"⟩]).2.get? 0 =
      some (registryAfter (fun _ => []) [⟨⟨0, 1⟩, "a"⟩] (noteKey ⟨0, 1⟩)) :=
  ⟨(RouteChat_spec (fun _ => []) []).2.2.2 ⟨⟨0, 1⟩, "a"⟩ ⟨⟨0, 1⟩, "b"⟩ rfl,
   (RouteChat_spec (fun _ => []) [⟨⟨0, 1⟩, "a"⟩]).2.2.1 0 (by decide)⟩

theorem atan2_nonneg {y x : ℝ} (hy : 0 ≤ y) (hx : 0 ≤ x) : 0 ≤ atan2 y x := by
  unfold atan2
  by_cases h1 : 0 < x
  · rw [if_pos h1]
    have h0 : (0 : ℝ) ≤ y / x := div_nonneg hy h1.le
    have h6 := Real.arctan_strictMono.monotone h0
    rwa [Real.arctan_zero] at h6
  · rw [if_neg h1, if_neg (not_lt.mpr hx)]
    by_cases h4 : 0 < y
    · rw [if_pos h4]
      exact le_of_lt (half_pos Real.pi_pos)
    · rw [if_neg h4, if_neg (not_lt.mpr hy)]

theorem calcDistance_nonneg (p1 p2 : Point) : 0 ≤ calcDistance p1 p2 := by
  unfold calcDistance
  have h := atan2_nonneg (Real.sqrt_nonneg (haversineA p1 p2))
    (Real.sqrt_nonneg (1 - haversineA p1 p2))
  have hc : (0 : ℝ) ≤ 6371000 *
      (2 * atan2 (Real.sqrt (haversineA p1 p2)) (Real.sqrt (1 - haversineA p1 p2))) :=
    mul_nonneg (by norm_num) (mul_nonneg (by norm_num) h)
  unfold truncToInt
  rw [if_pos hc]
  exact Int.floor_nonneg.mpr hc

theorem haversineA_self (p : Point) : haversineA p p = 0 := by
  unfold haversineA
  simp

theorem sin_half_sq_comm (a b : ℝ) :
    Real.sin ((a - b) / 2) * Real.sin ((a - b) / 2) =
      Real.sin ((b - a) / 2) * Real.sin ((b - a) / 2) := by
  have h : (a - b) / 2 = -((b - a) / 2) := by ring
  rw [h, Real.sin_neg]
  ring

theorem haversineA_comm (p1 p2 : Point) : haversineA p1 p2 = haversineA p2 p1 := by
  unfold haversineA
  rw [sin_half_sq_comm (pointLatRad p2) (pointLatRad p1),
    sin_half_sq_comm (pointLngRad p2) (pointLngRad p1),
    mul_comm (Real.cos (pointLatRad p1)) (Real.cos (pointLatRad p2))]

theorem calcDistance_self (p : Point) : calcDistance p p = 0 := by
  unfold calcDistance
  rw [haversineA_self]
  have h0 : atan2 (Real.sqrt 0) (Real.sqrt (1 - 0)) = 0 := by
    rw [Real.sqrt_zero, sub_zero, Real.sqrt_one]
    unfold atan2
    rw [if_pos one_pos]
    simp [Real.arctan_zero]
  rw [h0]
  norm_num
  unfold truncToInt
  rw [if_pos le_rfl]
  exact Int.floor_zero

/-- C6: the distance function vanishes on equal points and is symmetric in
its two arguments. -/
theorem calcDistance_self_and_symm :
    (∀ p : Point, calcDistance p p = 0) ∧
    (∀ p1 p2 : Point, calcDistance p1 p2 = calcDistance p2 p1) := by
  refine ⟨calcDistance_self, fun p1 p2 => ?_⟩
  unfold calcDistance
  rw [haversineA_comm]


theorem wrap32_lb (n : Int) : -(2 ^ 31) ≤ wrap32 n := by
  unfold wrap32
  omega

theorem wrap32_lt (n : Int) : wrap32 n < 2 ^ 31 := by
  unfold wrap32
  omega

theorem wrap32_eq_self {n : Int} (h1 : -(2 ^ 31) ≤ n) (h2 : n < 2 ^ 31) :
    wrap32 n = n := by
  unfold wrap32
  omega

theorem wrap32_eq_sub {n : Int} (h1 : 2 ^ 31 ≤ n) (h2 : n < 2 ^ 31 + 2 ^ 32) :
    wrap32 n = n - 2 ^ 32 := by
  unfold wrap32
  omega

theorem wrap32_wrap32_add (a b : Int) : wrap32 (wrap32 a + b) = wrap32 (a + b) := by
  unfold wrap32
  omega

theorem calcDistance_comm (p1 p2 : Point) : calcDistance p1 p2 = calcDistance p2 p1 := by
  unfold calcDistance
  rw [haversineA_comm]

theorem recordRouteLoop_pc (fs : List Feature) :
    ∀ (pts : List Point) (pc fc d : Int) (lp : Option Point),
      -(2 ^ 31) ≤ pc → pc < 2 ^ 31 →
      (recordRouteLoop fs pts pc fc d lp).1 = wrap32 (pc + pts.length) := by
  intro pts
  induction pts with
  | nil =>
    intro pc fc d lp h1 h2
    simp only [recordRouteLoop, List.length_nil, Nat.cast_zero, add_zero]
    exact (wrap32_eq_self h1 h2).symm
  | cons p rest ih =>
    intro pc fc d lp h1 h2
    simp only [recordRouteLoop]
    rw [ih _ _ _ _ (wrap32_lb _) (wrap32_lt _), wrap32_wrap32_add]
    congr 1
    simp only [List.length_cons]
    push_cast
    ring

theorem foldl_feature_count (p : Point) (fs : List Feature) :
    ∀ acc : Int, -(2 ^ 31) ≤ acc → acc < 2 ^ 31 →
      fs.foldl (fun acc f => if f.location = p then wrap32 (acc + 1) else acc) acc =
        wrap32 (acc + ((fs.filter (fun f => f.location = p)).length : Int)) := by
  induction fs with
  | nil =>
    intro acc h1 h2
    simp only [List.foldl_nil, List.filter_nil, List.length_nil, Nat.cast_zero, add_zero]
    exact (wrap32_eq_self h1 h2).symm
  | cons f rest ih =>
    intro acc h1 h2
    by_cases h : f.location = p
    · rw [List.foldl_cons, List.filter_cons]
      simp only [h, decide_True, if_true, if_pos]
      rw [ih _ (wrap32_lb _) (wrap32_lt _), wrap32_wrap32_add]
      congr 1
      simp only [List.length_cons]
      push_cast
      ring
    · rw [List.foldl_cons, List.filter_cons]
      simp only [h, decide_False, if_false, if_neg]
      exact ih acc h1 h2

theorem recordRouteLoop_fc (fs : List Feature) :
    ∀ (pts : List Point) (pc fc d : Int) (lp : Option Point),
      -(2 ^ 31) ≤ fc → fc < 2 ^ 31 →
      (recordRouteLoop fs pts pc fc d lp).2.1 =
        wrap32 (fc +
          (pts.map (fun p => ((fs.filter (fun f => f.location = p)).length : Int))).sum) := by
  intro pts
  induction pts with
  | nil =>
    intro pc fc d lp h1 h2
    simp only [recordRouteLoop, List.map_nil, List.sum_nil, add_zero]
    exact (wrap32_eq_self h1 h2).symm
  | cons p rest ih =>
    intro pc fc d lp h1 h2
    simp only [recordRouteLoop]
    rw [foldl_feature_count p fs fc h1 h2,
      ih _ _ _ _ (wrap32_lb _) (wrap32_lt _), wrap32_wrap32_add]
    congr 1
    simp only [List.map_cons, List.sum_cons]
    ring

theorem recordRouteLoop_dist_some (fs : List Feature) :
    ∀ (pts : List Point) (q : Point) (pc fc d : Int),
      -(2 ^ 31) ≤ d → d < 2 ^ 31 →
      (recordRouteLoop fs pts pc fc d (some q)).2.2 =
        wrap32 (d + (List.zipWith calcDistance (q :: pts) pts).sum) := by
  intro pts
  induction pts with
  | nil =>
    intro q pc fc d h1 h2
    simp only [recordRouteLoop, List.zipWith_nil_right, List.sum_nil, add_zero]
    exact (wrap32_eq_self h1 h2).symm
  | cons p rest ih =>
    intro q pc fc d h1 h2
    simp only [recordRouteLoop]
    rw [ih _ _ _ _ (wrap32_lb _) (wrap32_lt _), wrap32_wrap32_add]
    rw [List.zipWith_cons_cons, List.sum_cons]
    congr 1
    ring

theorem recordRouteLoop_dist_none (fs : List Feature) (pts : List Point)
    (pc fc d : Int) (h1 : -(2 ^ 31) ≤ d) (h2 : d < 2 ^ 31) :
    (recordRouteLoop fs pts pc fc d none).2.2 =
      wrap32 (d + (List.zipWith calcDistance pts pts.tail).sum) := by
  cases pts with
  | nil =>
    simp only [recordRouteLoop, List.zipWith_nil_left, List.sum_nil, add_zero]
    exact (wrap32_eq_self h1 h2).symm
  | cons p rest =>
    exact recordRouteLoop_dist_some fs rest p _ _ d h1 h2

theorem RecordRoute_pointCount_eq (fs : List Feature) (pts : List Point) (elapsed : ℝ) :
    (RecordRoute fs pts elapsed).pointCount = wrap32 pts.length := by
  show (recordRouteLoop fs pts 0 0 0 none).1 = _
  rw [recordRouteLoop_pc fs pts 0 0 0 none (by norm_num) (by norm_num), zero_add]

theorem RecordRoute_featureCount_eq (fs : List Feature) (pts : List Point) (elapsed : ℝ) :
    (RecordRoute fs pts elapsed).featureCount =
      wrap32 ((pts.map (fun p => ((fs.filter (fun f => f.location = p)).length : Int))).sum) := by
  show (recordRouteLoop fs pts 0 0 0 none).2.1 = _
  rw [recordRouteLoop_fc fs pts 0 0 0 none (by norm_num) (by norm_num), zero_add]

theorem RecordRoute_distance_eq (fs : List Feature) (pts : List Point) (elapsed : ℝ) :
    (RecordRoute fs pts elapsed).distance =
      wrap32 ((List.zipWith calcDistance pts pts.tail).sum) := by
  show (recordRouteLoop fs pts 0 0 0 none).2.2 = _
  rw [recordRouteLoop_dist_none fs pts 0 0 0 (by norm_num) (by norm_num), zero_add]

theorem zipWith_calcDistance_cons_nonneg :
    ∀ (l : List Point) (p : Point), 0 ≤ (List.zipWith calcDistance (p :: l) l).sum := by
  intro l
  induction l with
  | nil =>
    intro p
    simp
  | cons q rest ih =>
    intro p
    rw [List.zipWith_cons_cons, List.sum_cons]
    exact add_nonneg (calcDistance_nonneg p q) (ih q)

theorem pairSum_nonneg (pts : List Point) :
    0 ≤ (List.zipWith calcDistance pts pts.tail).sum := by
  cases pts with
  | nil => simp
  | cons p rest => exact zipWith_calcDistance_cons_nonneg rest p

theorem featureSum_nonneg (fs : List Feature) (pts : List Point) :
    0 ≤ (pts.map (fun p => ((fs.filter (fun f => f.location = p)).length : Int))).sum := by
  refine List.sum_nonneg ?_
  intro x hx
  obtain ⟨p, hp, rfl⟩ := List.mem_map.mp hx
  positivity

/-- C1 (amended): the accumulators of `RecordRoute` are Go `int32`
variables, so the summary's `pointCount` is the number of streamed points,
`featureCount` the sum over received points of the number of store features
located exactly at that point (duplicates counting again), and `distance`
the sum of `calcDistance` over consecutive pairs, each reduced into int32 by
two's-complement wraparound; whenever the exact count or sum lies below
`2^31` the field equals it exactly, and with zero points all three are 0. -/
theorem RecordRoute_spec (fs : List Feature) (pts : List Point) (elapsed : ℝ) :
    (RecordRoute fs pts elapsed).pointCount = wrap32 pts.length ∧
    (RecordRoute fs pts elapsed).featureCount =
      wrap32 ((pts.map (fun p => ((fs.filter (fun f => f.location = p)).length : Int))).sum) ∧
    (RecordRoute fs pts elapsed).distance =
      wrap32 ((List.zipWith calcDistance pts pts.tail).sum) ∧
    ((pts.length : Int) < 2 ^ 31 →
      (RecordRoute fs pts elapsed).pointCount = pts.length) ∧
    ((pts.map (fun p => ((fs.filter (fun f => f.location = p)).length : Int))).sum < 2 ^ 31 →
      (RecordRoute fs pts elapsed).featureCount =
        (pts.map (fun p => ((fs.filter (fun f => f.location = p)).length : Int))).sum) ∧
    ((List.zipWith calcDistance pts pts.tail).sum < 2 ^ 31 →
      (RecordRoute fs pts elapsed).distance =
        (List.zipWith calcDistance pts pts.tail).sum) ∧
    RecordRoute fs [] elapsed = ⟨0, 0, 0, truncToInt elapsed⟩ := by
  refine ⟨RecordRoute_pointCount_eq fs pts elapsed, RecordRoute_featureCount_eq fs pts elapsed,
    RecordRoute_distance_eq fs pts elapsed, ?_, ?_, ?_, rfl⟩
  · intro hlt
    rw [RecordRoute_pointCount_eq fs pts elapsed]
    exact wrap32_eq_self (by omega) hlt
  · intro hlt
    rw [RecordRoute_featureCount_eq fs pts elapsed]
    exact wrap32_eq_self (by have := featureSum_nonneg fs pts; omega) hlt
  · intro hlt
    rw [RecordRoute_distance_eq fs pts elapsed]
    exact wrap32_eq_self (by have := pairSum_nonneg pts; omega) hlt

/-- Witness for C1 at the empty stream: the exact counts are in range and
returned unchanged. -/
theorem RecordRoute_spec_witness :
    (RecordRoute [] ([] : List Point) 0).pointCount = (([] : List Point).length : Int) ∧
    (RecordRoute [] ([] : List Point) 0).distance =
      (List.zipWith calcDistance ([] : List Point) ([] : List Point).tail).sum :=
  ⟨(RecordRoute_spec [] [] 0).2.2.2.1 (by norm_num),
   (RecordRoute_spec [] [] 0).2.2.2.2.2.1 (by simp)⟩

theorem altPoints_head (n : Nat) (a b : Point) :
    ∃ M, altPoints n a b = a :: M := by
  cases n with
  | zero => exact ⟨[], rfl⟩
  | succ m => exact ⟨altPoints m b a, rfl⟩

theorem altPoints_pairSum :
    ∀ (n : Nat) (a b : Point),
      (List.zipWith calcDistance (altPoints n a b) (altPoints n a b).tail).sum =
        n * calcDistance a b := by
  intro n
  induction n with
  | zero =>
    intro a b
    simp [altPoints]
  | succ m ih =>
    intro a b
    obtain ⟨M, hM⟩ := altPoints_head m b a
    show (List.zipWith calcDistance (a :: altPoints m b a)
      ((a :: altPoints m b a).tail)).sum = _
    conv_lhs => rw [hM]
    simp only [List.tail_cons]
    rw [List.zipWith_cons_cons, List.sum_cons]
    have h2 : (List.zipWith calcDistance (b :: M) M).sum = m * calcDistance b a := by
      have h3 := ih b a
      rw [hM] at h3
      simpa using h3
    rw [h2, calcDistance_comm b a]
    push_cast
    ring

theorem calcDistance_antipodal :
    20015082 ≤ calcDistance ⟨0, 0⟩ ⟨0, 1800000000⟩ ∧
      calcDistance ⟨0, 0⟩ ⟨0, 1800000000⟩ ≤ 20015089 := by
  have hlat1 : pointLatRad ⟨0, 0⟩ = 0 := by
    simp [pointLatRad, toRadians]
  have hlat2 : pointLatRad ⟨0, 1800000000⟩ = 0 := by
    simp [pointLatRad, toRadians]
  have hlng1 : pointLngRad ⟨0, 0⟩ = 0 := by
    simp [pointLngRad, toRadians]
  have hlng2 : pointLngRad ⟨0, 1800000000⟩ = Real.pi := by
    simp only [pointLngRad, toRadians]
    norm_num
  have ha : haversineA ⟨0, 0⟩ ⟨0, 1800000000⟩ = 1 := by
    unfold haversineA
    rw [hlat1, hlat2, hlng1, hlng2]
    simp [Real.sin_pi_div_two]
  have hc : calcDistance ⟨0, 0⟩ ⟨0, 1800000000⟩ = ⌊(6371000 : ℝ) * Real.pi⌋ := by
    unfold calcDistance
    rw [ha, sub_self, Real.sqrt_one, Real.sqrt_zero]
    have hat : atan2 1 0 = Real.pi / 2 := by
      unfold atan2
      rw [if_neg (lt_irrefl 0), if_neg (lt_irrefl 0), if_pos one_pos]
    rw [hat]
    have h6 : (6371000 : ℝ) * (2 * (Real.pi / 2)) = 6371000 * Real.pi := by ring
    rw [h6]
    unfold truncToInt
    rw [if_pos (by positivity)]
  have hpi1 := Real.pi_gt_d6
  have hpi2 := Real.pi_lt_d6
  constructor
  · rw [hc, Int.le_floor]
    push_cast
    nlinarith
  · rw [hc]
    have h3 : ⌊(6371000 : ℝ) * Real.pi⌋ < 20015090 := by
      rw [Int.floor_lt]
      push_cast
      nlinarith
    omega

/-- Counterexample to C1 as stated: for the 109-point stream alternating
between the antipodal points (0, 0) and (0, 1800000000), the `distance`
field returned by `RecordRoute` (an int32, which wraps) differs from the
exact sum of `calcDistance` over consecutive pairs, which exceeds `2^31`. -/
theorem RecordRoute_distance_wraps :
    (RecordRoute [] (altPoints 108 ⟨0, 0⟩ ⟨0, 1800000000⟩) 0).distance ≠
      (List.zipWith calcDistance (altPoints 108 ⟨0, 0⟩ ⟨0, 1800000000⟩)
        (altPoints 108 ⟨0, 0⟩ ⟨0, 1800000000⟩).tail).sum := by
  have hd := calcDistance_antipodal
  rw [RecordRoute_distance_eq, altPoints_pairSum]
  push_cast
  have h1 : (2 : Int) ^ 31 ≤ 108 * calcDistance ⟨0, 0⟩ ⟨0, 1800000000⟩ := by omega
  have h2 := wrap32_lt (108 * calcDistance ⟨0, 0⟩ ⟨0, 1800000000⟩)
  omega

/-- Counterexample to C7 as stated: at the same 109-point antipodal stream
the program's int32 `distance` accumulator wraps negative. -/
theorem RecordRoute_distance_negative :
    (RecordRoute [] (altPoints 108 ⟨0, 0⟩ ⟨0, 1800000000⟩) 0).distance < 0 := by
  have hd := calcDistance_antipodal
  rw [RecordRoute_distance_eq, altPoints_pairSum]
  push_cast
  rw [wrap32_eq_sub (by omega) (by omega)]
  omega

/-- C7 (amended): all four fields of the summary returned by `RecordRoute`
are non-negative provided the stream is short enough that none of the int32
accumulators overflows — fewer than `2^31` points, exact feature-match sum
below `2^31`, exact distance sum below `2^31` — and the externally observed
elapsed duration is non-negative (as wall-clock durations are). -/
theorem RecordRoute_nonneg (fs : List Feature) (pts : List Point) (elapsed : ℝ)
    (hpc : (pts.length : Int) < 2 ^ 31)
    (hfc : (pts.map (fun p => ((fs.filter (fun f => f.location = p)).length : Int))).sum < 2 ^ 31)
    (hdist : (List.zipWith calcDistance pts pts.tail).sum < 2 ^ 31)
    (h : 0 ≤ elapsed) :
    0 ≤ (RecordRoute fs pts elapsed).pointCount ∧
    0 ≤ (RecordRoute fs pts elapsed).featureCount ∧
    0 ≤ (RecordRoute fs pts elapsed).distance ∧
    0 ≤ (RecordRoute fs pts elapsed).elapsedTime := by
  refine ⟨?_, ?_, ?_, ?_⟩
  · rw [RecordRoute_pointCount_eq fs pts elapsed, wrap32_eq_self (by omega) hpc]
    omega
  · have h0 := featureSum_nonneg fs pts
    rw [RecordRoute_featureCount_eq fs pts elapsed, wrap32_eq_self (by omega) hfc]
    omega
  · have h0 := pairSum_nonneg pts
    rw [RecordRoute_distance_eq fs pts elapsed, wrap32_eq_self (by omega) hdist]
    omega
  · show 0 ≤ truncToInt elapsed
    unfold truncToInt
    rw [if_pos h]
    exact Int.floor_nonneg.mpr h

/-- Witness for C7: the empty stream with zero elapsed time. -/
theorem RecordRoute_nonneg_witness :
    0 ≤ (0 : ℝ) ∧
    (0 ≤ (RecordRoute [] [] 0).pointCount ∧
     0 ≤ (RecordRoute [] [] 0).featureCount ∧
     0 ≤ (RecordRoute [] [] 0).distance ∧
     0 ≤ (RecordRoute [] [] 0).elapsedTime) :=
  ⟨le_refl 0,
   RecordRoute_nonneg [] [] 0 (by norm_num) (by norm_num) (by simp) (le_refl 0)⟩
